import Mathlib

/-!
A verification development for the RBM training core of pylearn2 (`rbm.py`):
a shallow embedding of the binary-binary RBM, the Gaussian-binary RBM, the
pooled spike-and-slab RBM, the persistent contrastive-divergence sampler and
the training-update composition, together with theorems checking the
specification's statements about them.

Modelling conventions: real-valued tensors are embedded as matrices over `ℚ`
(`Mat b n`, rows indexing training examples); the external nonlinearities
(`nnet.sigmoid`, `nnet.softplus`, `tensor.exp`) are abstract fields of a
`TheanoOps` record; the MRG random stream is an abstract stream of draws with
a position counter, and each `uniform(shape)` call consumes one fresh draw per
entry of the requested shape; symbolic differentiation (`tensor.grad`) is an
injected capability `gradFn` that receives the scalar objective as a function
of the model parameters only, the two phase inputs being already fixed
(`consider_constant=[pos_v, neg_v]`); Python exceptions are modelled with
`Except PyError`.
-/

namespace Pylearn2Rbm

/-- Matrices over the rationals, indexed (row, column). -/
abbrev Mat (m n : ℕ) : Type := Fin m → Fin n → ℚ

/-- Vectors over the rationals. -/
abbrev Vec (n : ℕ) : Type := Fin n → ℚ

/-- A matrix value together with its shape, for heterogeneous update sets. -/
abbrev MatVal : Type := (m : ℕ) × (n : ℕ) × Mat m n

/-- theano `tensor.dot` of a matrix with a matrix. -/
def tdot {b m n : ℕ} (A : Mat b m) (B : Mat m n) : Mat b n :=
  fun i j => ∑ k, A i k * B k j

/-- theano `tensor.dot` of a matrix with a vector. -/
def tdotVec {b n : ℕ} (A : Mat b n) (x : Vec n) : Vec b :=
  fun i => ∑ k, A i k * x k

/-- theano `.T` (matrix transpose). -/
def ttranspose {m n : ℕ} (A : Mat m n) : Mat n m :=
  fun i j => A j i

/-- Broadcasting addition of a row vector to every row of a matrix. -/
def addRow {b n : ℕ} (x : Vec n) (A : Mat b n) : Mat b n :=
  fun i j => x j + A i j

/-- theano `.mean()` over a vector of per-example values. -/
def theanoMean {n : ℕ} (x : Vec n) : ℚ := (∑ i, x i) / (n : ℚ)

/-- `tensor.clip` / `numpy.clip`: `min(hi, max(lo, x))`. -/
def tclip (x lo hi : ℚ) : ℚ := min hi (max lo x)

/-- The external nonlinearities used by `rbm.py`, kept abstract: the logistic
sigmoid, the numerically stable softplus and the exponential. -/
structure TheanoOps where
  sigmoid : ℚ → ℚ
  softplus : ℚ → ℚ
  texp : ℚ → ℚ

/-- The two operations of `mu_pooled_ssRBM` whose bodies are a bare
`raise NotImplementedError('mu_pooled_ssRBM.<method>')`. -/
inductive SsMethod
  | sample_visibles
  | mean_v_given_h
deriving DecidableEq

/-- Python exceptions observable from the embedded code. -/
inductive PyError
  | nameError
  | keyError
  | assertionError
  | typeError
  | notImplemented (method : SsMethod)
deriving DecidableEq

/-- The MRG random stream: an abstract stream of uniform draws and the current
position in it. Each `uniform(shape)` call consumes one fresh draw per entry. -/
structure MRGStream where
  stream : ℕ → ℚ
  pos : ℕ

/-- `rng.uniform(size=(m, n))`: an `m × n` block of fresh draws, laid out in
row-major order from the current position, advancing the position past it. -/
def drawUniform (rng : MRGStream) (m n : ℕ) : Mat m n × MRGStream :=
  (fun i j => rng.stream (rng.pos + i.1 * n + j.1),
   { rng with pos := rng.pos + m * n })

/-- Parameters of the binary-binary `RBM` (class `RBM`, `rbm.py` lines
180-218): visible bias `vb`, hidden bias `hb` and weight matrix `W` of shape
(nvis, nhid). -/
structure RBMmodel (nvis nhid : ℕ) where
  visbias : Vec nvis
  hidbias : Vec nhid
  weights : Mat nvis nhid

/-- `RBM.input_to_h_from_v` (lines 326-347): `hidbias + dot(v, weights)`. -/
def RBMmodel.input_to_h_from_v {nv nh b : ℕ} (m : RBMmodel nv nh)
    (v : Mat b nv) : Mat b nh :=
  addRow m.hidbias (tdot v m.weights)

/-- `RBM.mean_h_given_v` (lines 349-371): `sigmoid(input_to_h_from_v(v))`. -/
def RBMmodel.mean_h_given_v {nv nh b : ℕ} (ops : TheanoOps) (m : RBMmodel nv nh)
    (v : Mat b nv) : Mat b nh :=
  fun i j => ops.sigmoid (m.input_to_h_from_v v i j)

/-- `RBM.mean_v_given_h` (lines 373-396): `sigmoid(visbias + dot(h, W.T))`. -/
def RBMmodel.mean_v_given_h {nv nh b : ℕ} (ops : TheanoOps) (m : RBMmodel nv nh)
    (h : Mat b nh) : Mat b nv :=
  fun i k => ops.sigmoid (addRow m.visbias (tdot h (ttranspose m.weights)) i k)

/-- `RBM.free_energy_given_v` (lines 398-418):
`-(dot(v, visbias) + softplus(input_to_h_from_v(v)).sum(axis=1))`. -/
def RBMmodel.free_energy_given_v {nv nh b : ℕ} (ops : TheanoOps)
    (m : RBMmodel nv nh) (v : Mat b nv) : Vec b :=
  fun i => -(tdotVec v m.visbias i
    + ∑ j, ops.softplus (m.input_to_h_from_v v i j))

/-- `RBM.sample_visibles` (lines 305-324): Bernoulli sampling of the visibles,
`cast(rng.uniform(size=shape) < v_mean, floatX)` with `v_mean = params[0]`. -/
def RBMmodel.sample_visibles {nv nh b : ℕ} (m : RBMmodel nv nh)
    (params : List (Mat b nv)) (rng : MRGStream) : Mat b nv × MRGStream :=
  let v_mean := params.headI
  let d := drawUniform rng b nv
  (fun i k => if d.1 i k < v_mean i k then 1 else 0, d.2)

/-- The `locals()` diagnostics bundle returned by `gibbs_step_for_v`
(lines 280-303). -/
structure GibbsOut (b nv nh : ℕ) where
  h_mean : Mat b nh
  h_sample : Mat b nh
  v_mean : Mat b nv
  v_sample : Mat b nv

/-- `RBM.gibbs_step_for_v` (lines 260-303): sample `h` from `mean_h_given_v`,
compute `v_mean` from the stochastic `h_sample` (never from `h_mean`), then
sample the visibles. The advanced random stream is returned as well. -/
def RBMmodel.gibbs_step_for_v {nv nh b : ℕ} (ops : TheanoOps)
    (m : RBMmodel nv nh) (v : Mat b nv) (rng : MRGStream) :
    Mat b nv × GibbsOut b nv nh × MRGStream :=
  let h_mean := RBMmodel.mean_h_given_v ops m v
  let du := drawUniform rng b nh
  let h_sample : Mat b nh := fun i j => if du.1 i j < h_mean i j then 1 else 0
  let v_mean := RBMmodel.mean_v_given_h ops m h_sample
  let sv := m.sample_visibles [v_mean] du.2
  (sv.1,
   { h_mean := h_mean, h_sample := h_sample, v_mean := v_mean, v_sample := sv.1 },
   sv.2)

/-- `RBM.ml_gradients` (lines 220-258): the contrastive objective
`free_energy_given_v(pos_v).mean() - free_energy_given_v(neg_v).mean()` handed
to the external differentiator.  `gradFn` models
`tensor.grad(ml_cost, self.params(), consider_constant=[pos_v, neg_v])`: it
receives the cost as a function of the parameters only, with both phase
inputs already fixed, so no gradient can flow through them. -/
def RBMmodel.ml_gradients {nv nh b1 b2 : ℕ} {G : Type} (m : RBMmodel nv nh)
    (ops : TheanoOps) (gradFn : (RBMmodel nv nh → ℚ) → G)
    (pos_v : Mat b1 nv) (neg_v : Mat b2 nv) : G :=
  gradFn (fun params =>
    theanoMean (RBMmodel.free_energy_given_v ops params pos_v)
      - theanoMean (RBMmodel.free_energy_given_v ops params neg_v))

/-- The duck-typed model interface consumed by `training_updates`: anything
with `ml_gradients(pos_v, neg_v)`. -/
structure ModelIface (b1 b2 nv : ℕ) (G : Type) where
  ml_gradients : Mat b1 nv → Mat b2 nv → G

/-- The binary-binary `RBM` seen through the model interface. -/
def RBMmodel.asModelIface {nv nh b1 b2 : ℕ} {G : Type} (m : RBMmodel nv nh)
    (ops : TheanoOps) (gradFn : (RBMmodel nv nh → ℚ) → G) :
    ModelIface b1 b2 nv G :=
  { ml_gradients := fun pos neg => m.ml_gradients ops gradFn pos neg }

/-- The duck-typed sampler interface consumed by `training_updates`: current
`particles` and an `updates()` dictionary (keys are shared-variable ids). -/
structure SamplerIface (b nv : ℕ) (V : Type) where
  particles : Mat b nv
  updates : List (ℕ × V)

/-- The duck-typed optimizer interface: `updates(gradients)` returns the
parameter-update dictionary. -/
structure OptimizerIface (G V : Type) where
  updates : G → List (ℕ × V)

/-- Modelled from the spec: `safe_update` is imported from `pylearn2.utils`,
which is not part of the source under study; per the specification it is a
"safe merge" with key-collision detection that must fail loudly whenever a key
of the second dictionary already occurs in the first, and otherwise returns
the union of the two dictionaries. -/
def safe_update {V : Type} (dict_to dict_from : List (ℕ × V)) :
    Except PyError (List (ℕ × V)) :=
  if dict_from.any (fun kv => dict_to.any fun kv2 => kv2.1 == kv.1) then
    Except.error PyError.keyError
  else
    Except.ok (dict_to ++ dict_from)

/-- `training_updates` (lines 29-56): positive phase from `visible_batch`,
negative phase from `sampler.particles`, gradients through the optimizer, then
the sampler's own updates merged in with `safe_update`. -/
def training_updates {b1 b2 nv : ℕ} {G V : Type} (visible_batch : Mat b1 nv)
    (model : ModelIface b1 b2 nv G) (sampler : SamplerIface b2 nv V)
    (optimizer : OptimizerIface G V) : Except PyError (List (ℕ × V)) :=
  let pos_v := visible_batch
  let neg_v := sampler.particles
  let grads := model.ml_gradients pos_v neg_v
  let ups := optimizer.updates grads
  safe_update ups sampler.updates

/-- The binary-binary free energy of one visible example exactly as the
specification states it: `-(v·visible_bias + Σ softplus(input_to_h_from_v(v)))`
with `input_to_h_from_v(v) = hidden_bias + v·W`. -/
def spec_binary_free_energy {nv nh : ℕ} (ops : TheanoOps)
    (params : RBMmodel nv nh) (v : Vec nv) : ℚ :=
  -((∑ k, v k * params.visbias k)
    + ∑ j, ops.softplus (params.hidbias j + ∑ k, v k * params.weights k j))

/-- The duck-typed RBM interface consumed by the sampler: a
`gibbs_step_for_v`, plus the `h_sample` attribute slot that
`PersistentCDSampler.updates` attaches on first call (`h_sample_attr` is its
current value if the attribute exists, `h_sample_id` the id of the shared
variable holding it). -/
structure RBMIface (b nv nh : ℕ) where
  gibbs_step_for_v : Mat b nv → MRGStream → Mat b nv × GibbsOut b nv nh × MRGStream
  h_sample_attr : Option MatVal
  h_sample_id : ℕ

/-- State of a `PersistentCDSampler` (lines 106-140). -/
structure PersistentCDSampler (b nv nh : ℕ) where
  rbm : RBMIface b nv nh
  s_rng : MRGStream
  particlesId : ℕ
  particles : Mat b nv
  steps : ℤ
  particles_clip : Option (ℚ × ℚ)

/-- `PersistentCDSampler.__init__` (lines 116-140): stores everything and
performs no validation of `steps`. -/
def mkPersistentCDSampler {b nv nh : ℕ} (rbm : RBMIface b nv nh)
    (particles : Mat b nv) (particlesId : ℕ) (rng : MRGStream) (steps : ℤ)
    (particles_clip : Option (ℚ × ℚ)) : PersistentCDSampler b nv nh :=
  { rbm := rbm, s_rng := rng, particlesId := particlesId,
    particles := particles, steps := steps, particles_clip := particles_clip }

/-- The `for i in xrange(steps)` loop of `PersistentCDSampler.updates`
(lines 153-163): run the model's Gibbs step, clip the sampled particles if a
clip range is configured, re-feed; the `_locals` of the last completed
iteration are carried along (`none` when no iteration ran). -/
def runSteps {b nv nh : ℕ} (smp : PersistentCDSampler b nv nh) :
    ℕ → Mat b nv → MRGStream → Option (GibbsOut b nv nh) →
    Mat b nv × Option (GibbsOut b nv nh) × MRGStream
  | 0, particles, rng, loc => (particles, loc, rng)
  | n + 1, particles, rng, _ =>
      let r := smp.rbm.gibbs_step_for_v particles rng
      let particles' :=
        match smp.particles_clip with
        | none => r.1
        | some c => fun i j => tclip (r.1 i j) c.1 c.2
      runSteps smp n particles' r.2.2 (some r.2.1)

/-- Attribute attachment at lines 164-165: if the model has no `h_sample`
attribute, attach one holding a `0 × 0` zero matrix. -/
def attachHSample {b nv nh : ℕ} (r : RBMIface b nv nh) : RBMIface b nv nh :=
  match r.h_sample_attr with
  | none => { r with h_sample_attr := some ⟨0, 0, fun _ _ => 0⟩ }
  | some _ => r

/-- `PersistentCDSampler.updates` (lines 142-171): run the chain for `steps`
Gibbs sweeps, attach `h_sample` to the model if missing, and return the update
dictionary `{particles: <final particles>, rbm.h_sample: _locals['h_mean']}`.
When the loop ran zero times `_locals` is an unbound local and looking it up
raises a `NameError`. Returns the mutated sampler (model attribute attached,
random stream advanced) together with the dictionary or the exception. -/
def PersistentCDSampler.updates {b nv nh : ℕ}
    (smp : PersistentCDSampler b nv nh) :
    PersistentCDSampler b nv nh × Except PyError (List (ℕ × MatVal)) :=
  ({ smp with
      rbm := attachHSample smp.rbm,
      s_rng := (runSteps smp smp.steps.toNat smp.particles smp.s_rng none).2.2 },
   match (runSteps smp smp.steps.toNat smp.particles smp.s_rng none).2.1 with
   | none => Except.error PyError.nameError
   | some loc =>
       Except.ok
         [(smp.particlesId,
            ⟨b, nv, (runSteps smp smp.steps.toNat smp.particles smp.s_rng none).1⟩),
          ((attachHSample smp.rbm).h_sample_id, ⟨b, nh, loc.h_mean⟩)])

/-- One transition of the persistent chain as the loop body performs it:
the model's Gibbs step followed by the optional clip. -/
def pcdStep {b nv nh : ℕ} (smp : PersistentCDSampler b nv nh)
    (s : Mat b nv × MRGStream) : Mat b nv × MRGStream :=
  (match smp.particles_clip with
   | none => (smp.rbm.gibbs_step_for_v s.1 s.2).1
   | some c => fun i j => tclip ((smp.rbm.gibbs_step_for_v s.1 s.2).1 i j) c.1 c.2,
   (smp.rbm.gibbs_step_for_v s.1 s.2).2.2)

/-- The chain transition as the specification describes it for a configured
clip range `(lo, hi)`: a Gibbs step whose sampled output is clamped entrywise
into `[lo, hi]` before being re-fed. -/
def clippedGibbsStep {b nv nh : ℕ} (smp : PersistentCDSampler b nv nh)
    (lo hi : ℚ) (s : Mat b nv × MRGStream) : Mat b nv × MRGStream :=
  (fun i j => tclip ((smp.rbm.gibbs_step_for_v s.1 s.2).1 i j) lo hi,
   (smp.rbm.gibbs_step_for_v s.1 s.2).2.2)

/-- Parameters of `GaussianBinaryRBM` (lines 460-496): the binary-binary
parameters plus the per-visible `sigma` and the `mean_vis` flag. -/
structure GaussianBinaryRBM (nvis nhid : ℕ) where
  visbias : Vec nvis
  hidbias : Vec nhid
  weights : Mat nvis nhid
  sigma : Vec nvis
  mean_vis : Bool

/-- `GaussianBinaryRBM.input_to_h_from_v` (lines 498-525):
`hidbias + dot(v / sigma, weights)`. -/
def GaussianBinaryRBM.input_to_h_from_v {nv nh b : ℕ}
    (m : GaussianBinaryRBM nv nh) (v : Mat b nv) : Mat b nh :=
  addRow m.hidbias (tdot (fun i k => v i k / m.sigma k) m.weights)

/-- `GaussianBinaryRBM.mean_v_given_h` (lines 527-545):
`visbias + sigma * dot(h, W.T)`, an affine map without squashing. -/
def GaussianBinaryRBM.mean_v_given_h {nv nh b : ℕ}
    (m : GaussianBinaryRBM nv nh) (h : Mat b nh) : Mat b nv :=
  fun i k => m.visbias k + m.sigma k * tdot h (ttranspose m.weights) i k

/-- `GaussianBinaryRBM.free_energy_given_v` (lines 547-567):
`((visbias - v) ** 2 / sigma).sum(axis=1) - softplus(hid_inp).sum(axis=1)`. -/
def GaussianBinaryRBM.free_energy_given_v {nv nh b : ℕ} (ops : TheanoOps)
    (m : GaussianBinaryRBM nv nh) (v : Mat b nv) : Vec b :=
  fun i => (∑ k, (m.visbias k - v i k) ^ 2 / m.sigma k)
    - ∑ j, ops.softplus (m.input_to_h_from_v v i j)

/-- Parameters of `mu_pooled_ssRBM` (lines 599-667): `nslab = nhid * n_s_per_h`
slab units; `alpha` is stored through its logarithm. -/
structure MuPooledSSRBM (nvis nhid n_s_per_h : ℕ) where
  log_alpha : Vec (nhid * n_s_per_h)
  mu : Vec (nhid * n_s_per_h)
  b : Vec nhid
  B : Vec nvis
  Lambda : Mat nvis nhid
  W : Mat nvis (nhid * n_s_per_h)

/-- `self.alpha = tensor.exp(self.log_alpha)` (line 637). -/
def MuPooledSSRBM.alpha {nv nh ns : ℕ} (ops : TheanoOps)
    (m : MuPooledSSRBM nv nh ns) : Vec (nh * ns) :=
  fun s => ops.texp (m.log_alpha s)

/-- The `sum_s` helper of `mu_pooled_ssRBM.input_to_h_from_v` (lines 698-702):
`x.reshape((-1, nhid, n_s_per_h)).sum(axis=2)` on one row, i.e. a C-order
reshape of the slab axis into (nhid, n_s_per_h) followed by a sum over the
last axis. -/
def sum_s {nh ns : ℕ} (x : Vec (nh * ns)) : Vec nh :=
  fun j => ∑ k : Fin ns, x ⟨j.1 * ns + k.1, by
    have h1 : j.1 * ns + k.1 < (j.1 + 1) * ns := by
      rw [Nat.succ_mul]
      exact Nat.add_lt_add_left k.2 _
    exact Nat.lt_of_lt_of_le h1 (Nat.mul_le_mul_right ns j.2)⟩

/-- `mu_pooled_ssRBM.input_to_h_from_v` (lines 695-708):
`add(b, -0.5 * dot(v * v, Lambda), sum_s(mu * dot(v, W)),
sum_s(0.5 * sqr(dot(v, W)) / alpha))`. -/
def MuPooledSSRBM.input_to_h_from_v {nv nh ns bt : ℕ} (ops : TheanoOps)
    (m : MuPooledSSRBM nv nh ns) (v : Mat bt nv) : Mat bt nh :=
  fun i j =>
    m.b j + -(1/2 : ℚ) * tdot (fun i2 k => v i2 k * v i2 k) m.Lambda i j
      + sum_s (fun s => m.mu s * tdot v m.W i s) j
      + sum_s (fun s => 1/2 * tdot v m.W i s ^ 2 / MuPooledSSRBM.alpha ops m s) j

/-- `mu_pooled_ssRBM.free_energy_given_v` (lines 734-738):
`add(0.5 * (B * (v ** 2)).sum(axis=1), -softplus(sigmoid_arg).sum(axis=1))`. -/
def MuPooledSSRBM.free_energy_given_v {nv nh ns bt : ℕ} (ops : TheanoOps)
    (m : MuPooledSSRBM nv nh ns) (v : Mat bt nv) : Vec bt :=
  fun i => 1/2 * (∑ k, m.B k * v i k ^ 2)
    + -(∑ j, ops.softplus (MuPooledSSRBM.input_to_h_from_v ops m v i j))

/-- `mu_pooled_ssRBM.sample_visibles` (lines 692-693): unconditionally
`raise NotImplementedError('mu_pooled_ssRBM.sample_visibles')`. -/
def MuPooledSSRBM.sample_visibles {nv nh ns : ℕ} (m : MuPooledSSRBM nv nh ns)
    (params : List MatVal) (shape : ℕ × ℕ) (rng : MRGStream) :
    Except PyError MatVal :=
  Except.error (PyError.notImplemented SsMethod.sample_visibles)

/-- `mu_pooled_ssRBM.mean_v_given_h` (lines 730-731): unconditionally
`raise NotImplementedError('mu_pooled_ssRBM.mean_v_given_h')`. -/
def MuPooledSSRBM.mean_v_given_h {nv nh ns bt : ℕ} (m : MuPooledSSRBM nv nh ns)
    (h : Mat bt nh) : Except PyError (Mat bt nv) :=
  Except.error (PyError.notImplemented SsMethod.mean_v_given_h)

/-- The `pool` operation exactly as the specification words it: sum each
contiguous group of `n_s_per_h` slab entries into one hidden-unit entry, the
group of hidden unit `j` being the flat slab indices `t` with
`j * n_s_per_h ≤ t < j * n_s_per_h + n_s_per_h`. -/
def spec_pool {nh ns : ℕ} (x : Vec (nh * ns)) : Vec nh :=
  fun j => ∑ t ∈ Finset.univ.filter
      (fun t : Fin (nh * ns) => j.1 * ns ≤ t.1 ∧ t.1 < j.1 * ns + ns), x t

/-- The visible-unit type flag of `build_stacked_RBM`. -/
inductive VisType
  | binary
  | gaussian
deriving DecidableEq

/-- The construction parameters of one layer produced by
`build_stacked_RBM`. -/
structure RBMspec where
  nvis : ℕ
  nhid : ℕ
  gaussianVis : Bool
deriving DecidableEq

/-- `build_stacked_RBM` (lines 750-789). For `vis_type='gaussian'` the
statement `assert input_mean_vis in True, False` evaluates `in` on a `bool`
and raises a `TypeError`; for `vis_type='binary'` it asserts
`input_mean_vis is None` and then builds one layer per entry of `nhids`,
zipping `nhids` against `nviss = [nvis] + nhids[:-1]`, each binary layer being
constructed as `RBM(nvis - nvis, nhid=nhid, ...)` exactly as written at line
782 (the loop variable `nvis` shadows the argument). -/
def build_stacked_RBM (nvis : ℕ) (nhids : List ℕ) (vis_type : VisType)
    (input_mean_vis : Option Bool) : Except PyError (List RBMspec) :=
  match vis_type, input_mean_vis with
  | VisType.gaussian, _ => Except.error PyError.typeError
  | VisType.binary, some _ => Except.error PyError.assertionError
  | VisType.binary, none =>
      Except.ok
        ((List.zip (List.range nhids.length)
            (List.zip nhids (nvis :: nhids.dropLast))).map
          (fun knn =>
            { nvis := knn.2.2 - knn.2.2, nhid := knn.2.1, gaussianVis := false }))

/-- Embedding of the `k`-th entry of a contiguous block starting at flat
index `a` into the flat slab axis. -/
def blockEmbed (a : ℕ) {N ns : ℕ} (hbound : a + ns ≤ N) (k : Fin ns) : Fin N :=
  ⟨a + k.1, by have := k.2; omega⟩

/-! Concrete test fixtures used by the witness theorems. -/

/-- Concrete nonlinearities for witnesses. -/
def opsTest : TheanoOps :=
  { sigmoid := fun x => x, softplus := fun x => x, texp := fun x => x }

/-- Concrete random stream for witnesses: every draw is `1/4`. -/
def rngTest : MRGStream := { stream := fun _ => 1/4, pos := 0 }

/-- Concrete 1-visible, 1-hidden binary RBM with zero parameters. -/
def rbmTest : RBMmodel 1 1 :=
  { visbias := fun _ => 0, hidbias := fun _ => 0, weights := fun _ _ => 0 }

/-- Concrete 1 × 1 visible batch of zeros. -/
def vTest : Mat 1 1 := fun _ _ => 0

/-- Concrete Gibbs diagnostics for the interface fixture. -/
def gibbsOutTest : GibbsOut 1 1 1 :=
  { h_mean := fun _ _ => 1/2, h_sample := fun _ _ => 1,
    v_mean := fun _ _ => 1/2, v_sample := fun _ _ => 5 }

/-- Concrete RBM interface whose Gibbs step always samples the visible
value 5 (so that clipping is observable), with no `h_sample` attribute. -/
def rbmIfaceTest : RBMIface 1 1 1 :=
  { gibbs_step_for_v := fun _ rng => (fun _ _ => 5, gibbsOutTest, rng),
    h_sample_attr := none,
    h_sample_id := 1 }

/-- Concrete persistent sampler: 1 step, clip range (0, 1). -/
def pcdTest : PersistentCDSampler 1 1 1 :=
  { rbm := rbmIfaceTest, s_rng := rngTest, particlesId := 0,
    particles := fun _ _ => 0, steps := 1, particles_clip := some (0, 1) }

/-- Concrete model interface with trivial gradients. -/
def modelIfaceTest : ModelIface 1 1 1 Unit := { ml_gradients := fun _ _ => () }

/-- Concrete optimizer whose update set is keyed by shared-variable id 0. -/
def optTest : OptimizerIface Unit ℕ := { updates := fun _ => [(0, 5)] }

/-- Concrete sampler whose update set collides with `optTest`'s key 0. -/
def samplerCollideTest : SamplerIface 1 1 ℕ :=
  { particles := fun _ _ => 0, updates := [(0, 7)] }

/-- Concrete sampler whose update set uses the fresh key 1. -/
def samplerDisjointTest : SamplerIface 1 1 ℕ :=
  { particles := fun _ _ => 0, updates := [(1, 7)] }

/-! Helper lemmas. -/

/-- Row-major flattening of a (row, column) pair is injective when the column
index is below the row length. -/
theorem rowMajor_inj {nh a a' c c' : ℕ} (hc : c < nh) (hc' : c' < nh)
    (h : a * nh + c = a' * nh + c') : a = a' ∧ c = c' := by
  have ha : a = a' := by
    rcases Nat.lt_trichotomy a a' with hlt | he | hgt
    · exfalso
      have h1 : (a + 1) * nh ≤ a' * nh := Nat.mul_le_mul_right nh hlt
      have h2 : (a + 1) * nh = a * nh + nh := Nat.succ_mul a nh
      omega
    · exact he
    · exfalso
      have h1 : (a' + 1) * nh ≤ a * nh := Nat.mul_le_mul_right nh hgt
      have h2 : (a' + 1) * nh = a' * nh + nh := Nat.succ_mul a' nh
      omega
  subst ha
  exact ⟨rfl, by omega⟩

/-- Claim C1: for every visible minibatch, model, sampler and optimizer,
`training_updates` hands the external differentiator exactly the
contrastive-divergence objective
`mean(free_energy(visible_batch)) - mean(free_energy(sampler.particles))`:
the positive phase is the given batch, the negative phase is the sampler's
current particles (not re-sampled in the call), and the differentiated
function depends on the model parameters only — both phase inputs are fixed
constants of it, so no gradient flows through the sampling process. -/
theorem training_updates_cd_objective
    {nv nh b1 b2 : ℕ} {G V : Type} (ops : TheanoOps)
    (gradFn : (RBMmodel nv nh → ℚ) → G) (m : RBMmodel nv nh)
    (visible_batch : Mat b1 nv) (sampler : SamplerIface b2 nv V)
    (optimizer : OptimizerIface G V) :
    training_updates visible_batch (m.asModelIface ops gradFn) sampler optimizer
      = safe_update
          (optimizer.updates (gradFn (fun params =>
            theanoMean (fun i =>
                spec_binary_free_energy ops params (fun k => visible_batch i k))
              - theanoMean (fun i =>
                spec_binary_free_energy ops params (fun k => sampler.particles i k)))))
          sampler.updates := rfl

/-- Claim C2: `training_updates` merges the optimizer's parameter-update set
with the sampler's state-update set, raising an error whenever a key occurs
in both, and returning exactly the union of the two sets when the key sets
are disjoint. -/
theorem training_updates_safe_merge
    {b1 b2 nv : ℕ} {G V : Type} (model : ModelIface b1 b2 nv G)
    (visible_batch : Mat b1 nv) (sampler : SamplerIface b2 nv V)
    (optimizer : OptimizerIface G V) :
    ((∃ k, k ∈ (optimizer.updates
            (model.ml_gradients visible_batch sampler.particles)).map Prod.fst
        ∧ k ∈ sampler.updates.map Prod.fst) →
      training_updates visible_batch model sampler optimizer
        = Except.error PyError.keyError)
    ∧ ((∀ k, k ∈ (optimizer.updates
            (model.ml_gradients visible_batch sampler.particles)).map Prod.fst →
          k ∉ sampler.updates.map Prod.fst) →
      training_updates visible_batch model sampler optimizer
        = Except.ok (optimizer.updates
            (model.ml_gradients visible_batch sampler.particles)
            ++ sampler.updates)
      ∧ ∀ kv, kv ∈ (optimizer.updates
            (model.ml_gradients visible_batch sampler.particles)
            ++ sampler.updates)
          ↔ (kv ∈ optimizer.updates
                (model.ml_gradients visible_batch sampler.particles)
              ∨ kv ∈ sampler.updates)) := by
  constructor
  · rintro ⟨k, hk1, hk2⟩
    obtain ⟨kv, hkv, hkve⟩ := List.mem_map.mp hk2
    obtain ⟨kv2, hkv2, hkv2e⟩ := List.mem_map.mp hk1
    have hany : (sampler.updates.any fun kv =>
        (optimizer.updates
          (model.ml_gradients visible_batch sampler.particles)).any
          fun kv2 => kv2.1 == kv.1) = true := by
      rw [List.any_eq_true]
      refine ⟨kv, hkv, ?_⟩
      rw [List.any_eq_true]
      exact ⟨kv2, hkv2, by simp [hkv2e, hkve]⟩
    simp [training_updates, safe_update, hany]
  · intro hdisj
    have hany : (sampler.updates.any fun kv =>
        (optimizer.updates
          (model.ml_gradients visible_batch sampler.particles)).any
          fun kv2 => kv2.1 == kv.1) = false := by
      rw [Bool.eq_false_iff]
      intro hc
      rw [List.any_eq_true] at hc
      obtain ⟨kv, hkv, hin⟩ := hc
      rw [List.any_eq_true] at hin
      obtain ⟨kv2, hkv2, heq⟩ := hin
      have heq2 : kv2.1 = kv.1 := by simpa using heq
      exact hdisj kv2.1 (List.mem_map_of_mem Prod.fst hkv2)
        (heq2 ▸ List.mem_map_of_mem Prod.fst hkv)
    refine ⟨by simp [training_updates, safe_update, hany], fun kv => List.mem_append⟩

/-- Witness for C2: with the optimizer set keyed by 0, a sampler set also
keyed by 0 makes `training_updates` raise, while a sampler set keyed by 1
yields the union of the two sets. -/
theorem training_updates_safe_merge_check :
    training_updates vTest modelIfaceTest samplerCollideTest optTest
      = Except.error PyError.keyError
    ∧ training_updates vTest modelIfaceTest samplerDisjointTest optTest
      = Except.ok [(0, 5), (1, 7)] := by
  constructor
  · exact (training_updates_safe_merge modelIfaceTest vTest
      samplerCollideTest optTest).1 ⟨0, by decide, by decide⟩
  · exact ((training_updates_safe_merge modelIfaceTest vTest
      samplerDisjointTest optTest).2 (by decide)).1

/-- Claim C3: the binary-binary `gibbs_step_for_v` draws `h_sample` by
comparing one fresh uniform draw per hidden unit per example (the draw
positions are pairwise distinct) against `mean_h_given_v(v)`, casting the
comparison into {0,1}, and computes the visible reconstruction mean as
`mean_v_given_h(h_sample)` — from the stochastic sample, never from
`h_mean`. -/
theorem gibbs_step_propagates_sample
    {nv nh b : ℕ} (ops : TheanoOps) (m : RBMmodel nv nh) (v : Mat b nv)
    (rng : MRGStream) :
    (∀ i j, (RBMmodel.gibbs_step_for_v ops m v rng).2.1.h_sample i j
        = if rng.stream (rng.pos + i.1 * nh + j.1)
              < RBMmodel.mean_h_given_v ops m v i j then 1 else 0)
    ∧ (∀ (i i' : Fin b) (j j' : Fin nh),
        rng.pos + i.1 * nh + j.1 = rng.pos + i'.1 * nh + j'.1 →
          i = i' ∧ j = j')
    ∧ (RBMmodel.gibbs_step_for_v ops m v rng).2.1.v_mean
        = RBMmodel.mean_v_given_h ops m
            (RBMmodel.gibbs_step_for_v ops m v rng).2.1.h_sample := by
  refine ⟨fun i j => rfl, ?_, rfl⟩
  intro i i' j j' h
  have h2 : i.1 * nh + j.1 = i'.1 * nh + j'.1 := by
    rw [Nat.add_assoc, Nat.add_assoc] at h
    exact Nat.add_left_cancel h
  obtain ⟨ha, hc⟩ := rowMajor_inj j.2 j'.2 h2
  exact ⟨Fin.ext ha, Fin.ext hc⟩

/-- Witness for C3 at a concrete model, input and stream. -/
theorem gibbs_step_propagates_sample_check :
    (RBMmodel.gibbs_step_for_v opsTest rbmTest vTest rngTest).2.1.v_mean
      = RBMmodel.mean_v_given_h opsTest rbmTest
          (RBMmodel.gibbs_step_for_v opsTest rbmTest vTest rngTest).2.1.h_sample
    ∧ ((0 : Fin 1) = 0 ∧ (0 : Fin 1) = 0) := by
  have h := gibbs_step_propagates_sample opsTest rbmTest vTest rngTest
  exact ⟨h.2.2, h.2.1 0 0 0 0 rfl⟩

/-- Claim C6: the pooled spike-and-slab variant's `mean_v_given_h` and
`sample_visibles` each raise an error naming the unsupported variant
operation, for every input, and never return a value. -/
theorem ssrbm_unsupported_ops
    {bt nv nh ns : ℕ} (m : MuPooledSSRBM nv nh ns) (params : List MatVal)
    (shape : ℕ × ℕ) (rng : MRGStream) (h : Mat bt nh) :
    MuPooledSSRBM.sample_visibles m params shape rng
        = Except.error (PyError.notImplemented SsMethod.sample_visibles)
    ∧ (MuPooledSSRBM.mean_v_given_h m h : Except PyError (Mat bt nv))
        = Except.error (PyError.notImplemented SsMethod.mean_v_given_h) :=
  ⟨rfl, rfl⟩

/-- Claim C7: the Gaussian-binary variant scales each visible unit by
`1/sigma` before the weight multiply, and its free energy is the per-example
sum of `(visible_bias - v)^2 / sigma` minus the per-example sum of
`softplus(input_to_h_from_v(v))`. -/
theorem gaussian_binary_formulas
    {nv nh b : ℕ} (ops : TheanoOps) (m : GaussianBinaryRBM nv nh)
    (v : Mat b nv) :
    (∀ i j, GaussianBinaryRBM.input_to_h_from_v m v i j
        = m.hidbias j + ∑ k, v i k / m.sigma k * m.weights k j)
    ∧ (∀ i, GaussianBinaryRBM.free_energy_given_v ops m v i
        = (∑ k, (m.visbias k - v i k) ^ 2 / m.sigma k)
          - ∑ j, ops.softplus (GaussianBinaryRBM.input_to_h_from_v m v i j)) :=
  ⟨fun i j => rfl, fun i => rfl⟩

/-- Claim C9 (code bug): on input size 3 with hidden sizes [4, 5] and binary
visible units, `build_stacked_RBM` constructs its layers with
`RBM(nvis - nvis, ...)`, so every layer gets 0 visible units instead of the
chained sizes [3, 4] required by the claim and by the function's own
`nviss = [nvis] + nhids[:-1]` computation. -/
theorem build_stacked_rbm_nvis_zero :
    ∃ layers, build_stacked_RBM 3 [4, 5] VisType.binary none
        = Except.ok layers
      ∧ layers.map RBMspec.nvis = [0, 0]
      ∧ layers.map RBMspec.nhid = [4, 5] := by
  exact ⟨_, rfl, rfl, rfl⟩

/-! Lemmas about the persistent chain loop. -/

/-- The particles and random stream computed by the `updates` loop are the
`n`-fold iterate of the per-step transition (Gibbs step plus optional clip). -/
theorem runSteps_state {b nv nh : ℕ} (smp : PersistentCDSampler b nv nh) :
    ∀ (n : ℕ) (p : Mat b nv) (rng : MRGStream) (loc : Option (GibbsOut b nv nh)),
      ((runSteps smp n p rng loc).1, (runSteps smp n p rng loc).2.2)
        = (pcdStep smp)^[n] (p, rng) := by
  intro n
  induction n with
  | zero => intro p rng loc; rfl
  | succ n ih =>
      intro p rng loc
      have hun : runSteps smp (n + 1) p rng loc
          = runSteps smp n
              (match smp.particles_clip with
               | none => (smp.rbm.gibbs_step_for_v p rng).1
               | some c => fun i j =>
                   tclip ((smp.rbm.gibbs_step_for_v p rng).1 i j) c.1 c.2)
              (smp.rbm.gibbs_step_for_v p rng).2.2
              (some (smp.rbm.gibbs_step_for_v p rng).2.1) := rfl
      have hstep : pcdStep smp (p, rng)
          = (match smp.particles_clip with
             | none => (smp.rbm.gibbs_step_for_v p rng).1
             | some c => fun i j =>
                 tclip ((smp.rbm.gibbs_step_for_v p rng).1 i j) c.1 c.2,
             (smp.rbm.gibbs_step_for_v p rng).2.2) := rfl
      rw [hun, Function.iterate_succ_apply, hstep]
      exact ih _ _ _

/-- After `n + 1` loop iterations, the carried `_locals` are those of the
Gibbs step applied to the chain state reached after `n` transitions. -/
theorem runSteps_locals {b nv nh : ℕ} (smp : PersistentCDSampler b nv nh) :
    ∀ (n : ℕ) (p : Mat b nv) (rng : MRGStream) (loc : Option (GibbsOut b nv nh)),
      (runSteps smp (n + 1) p rng loc).2.1
        = some ((smp.rbm.gibbs_step_for_v ((pcdStep smp)^[n] (p, rng)).1
            ((pcdStep smp)^[n] (p, rng)).2).2.1) := by
  intro n
  induction n with
  | zero => intro p rng loc; rfl
  | succ n ih =>
      intro p rng loc
      have hun : runSteps smp (n + 1 + 1) p rng loc
          = runSteps smp (n + 1)
              (match smp.particles_clip with
               | none => (smp.rbm.gibbs_step_for_v p rng).1
               | some c => fun i j =>
                   tclip ((smp.rbm.gibbs_step_for_v p rng).1 i j) c.1 c.2)
              (smp.rbm.gibbs_step_for_v p rng).2.2
              (some (smp.rbm.gibbs_step_for_v p rng).2.1) := rfl
      have hstep : pcdStep smp (p, rng)
          = (match smp.particles_clip with
             | none => (smp.rbm.gibbs_step_for_v p rng).1
             | some c => fun i j =>
                 tclip ((smp.rbm.gibbs_step_for_v p rng).1 i j) c.1 c.2,
             (smp.rbm.gibbs_step_for_v p rng).2.2) := rfl
      rw [hun, Function.iterate_succ_apply, hstep]
      exact ih _ _ _

/-- With a configured clip range, the loop body is exactly the clipped Gibbs
transition of the specification. -/
theorem pcdStep_eq_clippedGibbsStep {b nv nh : ℕ}
    (smp : PersistentCDSampler b nv nh) (lo hi : ℚ)
    (hclip : smp.particles_clip = some (lo, hi)) :
    pcdStep smp = clippedGibbsStep smp lo hi := by
  funext s
  simp [pcdStep, clippedGibbsStep, hclip]

/-- A clipped value lies in the clip range whenever the range is nonempty. -/
theorem tclip_mem {x lo hi : ℚ} (h : lo ≤ hi) :
    lo ≤ tclip x lo hi ∧ tclip x lo hi ≤ hi :=
  ⟨le_min h (le_max_left _ _), min_le_left _ _⟩

/-- Attaching the `h_sample` attribute does not change its shared-variable
id. -/
theorem attachHSample_h_sample_id {b nv nh : ℕ} (r : RBMIface b nv nh) :
    (attachHSample r).h_sample_id = r.h_sample_id := by
  rcases hr : r.h_sample_attr with _ | val <;> simp [attachHSample, hr]

/-- Claim C4: for a persistent sampler with `steps ≥ 1` and clip range
`(lo, hi)`, `updates()` returns as the particles update the `steps`-fold
iterate of the clipped Gibbs transition — each step's sampled output is
clamped into `[lo, hi]` before being re-fed — and hence every entry of the
returned particles lies in `[lo, hi]`. -/
theorem pcd_updates_clip_each_step {b nv nh : ℕ}
    (smp : PersistentCDSampler b nv nh) (lo hi : ℚ)
    (hclip : smp.particles_clip = some (lo, hi)) (hlohi : lo ≤ hi)
    (hsteps : 1 ≤ smp.steps) :
    ∃ rest P,
      (PersistentCDSampler.updates smp).2
          = Except.ok ((smp.particlesId, (⟨b, nv, P⟩ : MatVal)) :: rest)
      ∧ P = ((clippedGibbsStep smp lo hi)^[smp.steps.toNat]
              (smp.particles, smp.s_rng)).1
      ∧ ∀ i j, lo ≤ P i j ∧ P i j ≤ hi := by
  obtain ⟨n, hn⟩ : ∃ n : ℕ, smp.steps.toNat = n + 1 :=
    ⟨smp.steps.toNat - 1, by omega⟩
  have hloc := runSteps_locals smp n smp.particles smp.s_rng none
  have hstate := congrArg Prod.fst
    (runSteps_state smp smp.steps.toNat smp.particles smp.s_rng none)
  refine ⟨[((attachHSample smp.rbm).h_sample_id,
      ⟨b, nh, ((smp.rbm.gibbs_step_for_v
          ((pcdStep smp)^[n] (smp.particles, smp.s_rng)).1
          ((pcdStep smp)^[n] (smp.particles, smp.s_rng)).2).2.1).h_mean⟩)],
    (runSteps smp smp.steps.toNat smp.particles smp.s_rng none).1,
    ?_, ?_, ?_⟩
  · simp only [PersistentCDSampler.updates, hn, hloc]
  · rw [pcdStep_eq_clippedGibbsStep smp lo hi hclip] at hstate
    exact hstate
  · intro i j
    rw [hn] at hstate ⊢
    rw [Function.iterate_succ_apply'] at hstate
    rw [hstate]
    simp only [pcdStep, hclip]
    exact tclip_mem hlohi

/-- Witness for C4 at the concrete sampler `pcdTest` (one step, clip range
`(0, 1)`, Gibbs step sampling the out-of-range value 5). -/
theorem pcd_updates_clip_each_step_check :
    pcdTest.particles_clip = some (0, 1) ∧ (0 : ℚ) ≤ 1 ∧ 1 ≤ pcdTest.steps
    ∧ ∃ rest P,
        (PersistentCDSampler.updates pcdTest).2
            = Except.ok ((pcdTest.particlesId, (⟨1, 1, P⟩ : MatVal)) :: rest)
        ∧ P = ((clippedGibbsStep pcdTest 0 1)^[pcdTest.steps.toNat]
                (pcdTest.particles, pcdTest.s_rng)).1
        ∧ ∀ i j, (0 : ℚ) ≤ P i j ∧ P i j ≤ 1 :=
  ⟨rfl, by norm_num, by decide,
    pcd_updates_clip_each_step pcdTest 0 1 rfl (by norm_num) (by decide)⟩

/-- Claim C5: a `PersistentCDSampler` constructed with zero or negative
Gibbs steps passes construction unchecked and fails fatally at the first
call to `updates()` (the loop binds no `_locals`, so the dictionary lookup
raises a `NameError`); `steps` must be at least 1 for `updates()` to
succeed. -/
theorem pcd_zero_steps_errors {b nv nh : ℕ} (rbm : RBMIface b nv nh)
    (particles : Mat b nv) (particlesId : ℕ) (rng : MRGStream) (steps : ℤ)
    (particles_clip : Option (ℚ × ℚ)) (hsteps : steps ≤ 0) :
    ((mkPersistentCDSampler rbm particles particlesId rng steps
        particles_clip).updates).2 = Except.error PyError.nameError := by
  have h0 : steps.toNat = 0 := Int.toNat_of_nonpos hsteps
  simp [PersistentCDSampler.updates, mkPersistentCDSampler, h0, runSteps]

/-- Witness for C5 at a concrete sampler constructed with `steps = 0`. -/
theorem pcd_zero_steps_errors_check :
    (0 : ℤ) ≤ 0
    ∧ ((mkPersistentCDSampler rbmIfaceTest (fun _ _ => 0) 0 rngTest 0
          none).updates).2 = Except.error PyError.nameError :=
  ⟨le_refl 0,
    pcd_zero_steps_errors rbmIfaceTest (fun _ _ => 0) 0 rngTest 0 none
      (le_refl 0)⟩

/-- Claim C10: when the model lacks an `h_sample` attribute, the first call
to `updates()` attaches one holding a `0 × 0` zero matrix; with `steps ≥ 1`
(and the two shared variables distinct, as they are by fresh allocation) the
returned update set has exactly the two keys `particles` and `h_sample`, the
latter mapped to the hidden-unit mean `h_mean` of the final Gibbs step — not
the stochastic hidden sample. -/
theorem pcd_updates_two_keys_h_mean {b nv nh : ℕ}
    (smp : PersistentCDSampler b nv nh)
    (hattr : smp.rbm.h_sample_attr = none)
    (hid : smp.particlesId ≠ smp.rbm.h_sample_id)
    (hsteps : 1 ≤ smp.steps) :
    (PersistentCDSampler.updates smp).1.rbm.h_sample_attr
        = some ⟨0, 0, fun _ _ => 0⟩
    ∧ ∃ Pv, (PersistentCDSampler.updates smp).2
        = Except.ok [(smp.particlesId, Pv),
            (smp.rbm.h_sample_id,
              ⟨b, nh, (smp.rbm.gibbs_step_for_v
                  ((pcdStep smp)^[smp.steps.toNat - 1]
                    (smp.particles, smp.s_rng)).1
                  ((pcdStep smp)^[smp.steps.toNat - 1]
                    (smp.particles, smp.s_rng)).2).2.1.h_mean⟩)]
      ∧ smp.particlesId ≠ smp.rbm.h_sample_id := by
  have hn : smp.steps.toNat = (smp.steps.toNat - 1) + 1 := by omega
  constructor
  · simp [PersistentCDSampler.updates, attachHSample, hattr]
  · refine ⟨⟨b, nv,
      (runSteps smp smp.steps.toNat smp.particles smp.s_rng none).1⟩,
      ?_, hid⟩
    have hloc :=
      runSteps_locals smp (smp.steps.toNat - 1) smp.particles smp.s_rng none
    rw [← hn] at hloc
    simp only [PersistentCDSampler.updates, hloc, attachHSample_h_sample_id]

/-- Witness for C10 at the concrete sampler `pcdTest` (model without an
`h_sample` attribute, distinct shared-variable ids 0 and 1, one step). -/
theorem pcd_updates_two_keys_check :
    (PersistentCDSampler.updates pcdTest).1.rbm.h_sample_attr
        = some ⟨0, 0, fun _ _ => 0⟩
    ∧ ∃ Pv, (PersistentCDSampler.updates pcdTest).2
        = Except.ok [(pcdTest.particlesId, Pv),
            (pcdTest.rbm.h_sample_id,
              ⟨1, 1, (pcdTest.rbm.gibbs_step_for_v
                  ((pcdStep pcdTest)^[pcdTest.steps.toNat - 1]
                    (pcdTest.particles, pcdTest.s_rng)).1
                  ((pcdStep pcdTest)^[pcdTest.steps.toNat - 1]
                    (pcdTest.particles, pcdTest.s_rng)).2).2.1.h_mean⟩)]
      ∧ pcdTest.particlesId ≠ pcdTest.rbm.h_sample_id :=
  pcd_updates_two_keys_h_mean pcdTest rfl (by decide) (by decide)

/-! Lemmas about the slab pooling. -/

/-- Summing a function over the flat indices of a contiguous block equals
summing it over the block's entries. -/
theorem filter_block_sum {N ns : ℕ} (x : Fin N → ℚ) (a : ℕ)
    (hbound : a + ns ≤ N) :
    (∑ t ∈ Finset.univ.filter (fun t : Fin N => a ≤ t.1 ∧ t.1 < a + ns), x t)
      = ∑ k : Fin ns, x (blockEmbed a hbound k) := by
  have hinj : ∀ p ∈ (Finset.univ : Finset (Fin ns)), ∀ q ∈ Finset.univ,
      blockEmbed a hbound p = blockEmbed a hbound q → p = q := by
    intro p _ q _ hpq
    have hv := congrArg Fin.val hpq
    simp only [blockEmbed] at hv
    exact Fin.ext (by omega)
  have himg : Finset.univ.filter (fun t : Fin N => a ≤ t.1 ∧ t.1 < a + ns)
      = Finset.image (blockEmbed a hbound) Finset.univ := by
    ext t
    simp only [Finset.mem_filter, Finset.mem_univ, true_and, Finset.mem_image]
    constructor
    · rintro ⟨h1, h2⟩
      refine ⟨⟨t.1 - a, by omega⟩, ?_⟩
      apply Fin.ext
      simp only [blockEmbed]
      omega
    · rintro ⟨k, hk⟩
      have hv := congrArg Fin.val hk
      simp only [blockEmbed] at hv
      have hk2 := k.2
      omega
  rw [himg, Finset.sum_image hinj]

/-- The specification's `pool` (sum over each contiguous group of `n_s_per_h`
slab entries) coincides with the source's reshape-based `sum_s`. -/
theorem spec_pool_eq_sum_s {nh ns : ℕ} (x : Vec (nh * ns)) (j : Fin nh) :
    spec_pool x j = sum_s x j := by
  have hbound : j.1 * ns + ns ≤ nh * ns := by
    rw [← Nat.succ_mul]
    exact Nat.mul_le_mul_right ns j.2
  unfold spec_pool sum_s
  rw [filter_block_sum x (j.1 * ns) hbound]
  rfl

/-- Claim C8: the pooled spike-and-slab variant's hidden pre-activation is
`b - ½·(v²·Lambda) + pool(mu ⊙ (v·W)) + pool(½·(v·W)²/alpha)` with `pool`
summing each contiguous group of `n_s_per_h` slab entries into one
hidden-unit entry, and its free energy is `½ Σ(B·v²) - Σ softplus(input)`
per example. -/
theorem ssrbm_formulas {bt nv nh ns : ℕ} (ops : TheanoOps)
    (m : MuPooledSSRBM nv nh ns) (v : Mat bt nv) :
    (∀ i j, MuPooledSSRBM.input_to_h_from_v ops m v i j
        = m.b j - 1/2 * (∑ k, v i k ^ 2 * m.Lambda k j)
          + spec_pool (fun s => m.mu s * ∑ k, v i k * m.W k s) j
          + spec_pool (fun s => 1/2 * (∑ k, v i k * m.W k s) ^ 2
              / MuPooledSSRBM.alpha ops m s) j)
    ∧ (∀ i, MuPooledSSRBM.free_energy_given_v ops m v i
        = 1/2 * (∑ k, m.B k * v i k ^ 2)
          - ∑ j, ops.softplus (MuPooledSSRBM.input_to_h_from_v ops m v i j)) := by
  constructor
  · intro i j
    have hT : (∑ k, v i k ^ 2 * m.Lambda k j)
        = ∑ k, v i k * v i k * m.Lambda k j :=
      Finset.sum_congr rfl fun k _ => by ring
    simp only [MuPooledSSRBM.input_to_h_from_v, spec_pool_eq_sum_s, tdot]
    rw [hT]
    ring
  · intro i
    simp only [MuPooledSSRBM.free_energy_given_v]
    ring

end Pylearn2Rbm
